import Mathlib

/-!
Verification development for the vibedb schema editor core.

The definitions below are a shallow embedding of the TypeScript source:
the schema data model (`src/types/index.ts`), the identity/reconciliation
functions, the command history (undo/redo), the schema mutation handlers,
the relationship deriver that turns a schema into graph nodes and links
(`SchemaGraph`), and the connection-tool click protocol.

Modelling conventions:
* JS `string` becomes `String`; optional fields become `Option`.
* Numeric coordinates become `ℚ` (the source only stores, compares and
  averages them).
* Module-level mutable `idCounter` state is threaded explicitly as a `Nat`.
* `Date.now()` is passed in as an explicit `now : Nat` argument.
* JS falsiness of the empty string (`x || y`, `if (!x)`) is modelled
  explicitly where the source relies on it.
* Handlers that call `setError` return `Project × Option String`
  (the second component is the surfaced error, `none` on success).
-/

/-- Column record (src/types/index.ts, `interface Column`). -/
structure Column where
  id : Option String
  name : String
  type : String
  isPrimaryKey : Bool
  isForeignKey : Bool
  foreignKeyTable : Option String
  foreignKeyColumn : Option String
  constraints : List String
deriving DecidableEq

/-- Table record (src/types/index.ts, `interface Table`). -/
structure Table where
  id : Option String
  name : String
  columns : List Column
  x : Option ℚ
  y : Option ℚ
deriving DecidableEq

/-- Schema record (src/types/index.ts, `interface Schema`). -/
structure Schema where
  tables : List Table
deriving DecidableEq

/-- Chat message sender (`'user' | 'ai'`). -/
inductive MsgSender where
  | user
  | ai
deriving DecidableEq

/-- Chat message (src/types/index.ts, `interface Message`). -/
structure Message where
  sender : MsgSender
  text : String
deriving DecidableEq

/-- Project record (src/types/index.ts, `interface Project`).  The
persistence metadata (`id`, `name`, `lastModified`) is never read by any
of the modelled operations and is omitted from the state. -/
structure Project where
  schema : Option Schema
  messages : List Message
  ddl : String
  undoStack : List (Option Schema)
  redoStack : List (Option Schema)
deriving DecidableEq

/-- `commitSchemaChange` (App component): push the current schema on the
undo stack, clear the redo stack, install the new schema. -/
def commitSchemaChange (p : Project) (newSchema : Option Schema) : Project :=
  { p with
    schema := newSchema
    undoStack := p.undoStack ++ [p.schema]
    redoStack := []
    ddl := if newSchema = none then "" else p.ddl }

/-- `handleUndo`: pop the last undo snapshot into the schema, pushing the
current schema on the front of the redo stack.  No-op on an empty stack. -/
def handleUndo (p : Project) : Project :=
  match p.undoStack.getLast? with
  | none => p
  | some previousSchema =>
    { p with
      schema := previousSchema
      undoStack := p.undoStack.dropLast
      redoStack := p.schema :: p.redoStack
      ddl := if previousSchema = none then "" else p.ddl }

/-- `handleRedo`: shift the first redo snapshot into the schema, pushing
the current schema on the undo stack.  No-op on an empty stack. -/
def handleRedo (p : Project) : Project :=
  match p.redoStack with
  | [] => p
  | nextSchema :: rest =>
    { p with
      schema := nextSchema
      undoStack := p.undoStack ++ [p.schema]
      redoStack := rest
      ddl := if nextSchema = none then "" else p.ddl }

/-- A sequence of schema mutations, each committed through the command
history. -/
def commitsList (p : Project) (l : List (Option Schema)) : Project :=
  l.foldl commitSchemaChange p

/-- Sample empty schema used by concrete instantiations. -/
def sampleSchema : Schema := ⟨[]⟩

/-- Sample project with a non-empty undo stack. -/
def sampleProject : Project :=
  { schema := some sampleSchema
    messages := []
    ddl := "ddl"
    undoStack := [none]
    redoStack := [] }

/-- Collapse every maximal run of whitespace into a single underscore:
the JS `name.replace(/\s+/g, '_')` used when minting identifiers. -/
def collapseWs : List Char → Bool → List Char
  | [], _ => []
  | c :: rest, prevWs =>
    if c.isWhitespace then
      (if prevWs then [] else ['_']) ++ collapseWs rest true
    else
      c :: collapseWs rest false

/-- Whitespace-sanitised identifier fragment. -/
def sanitizeName (s : String) : String :=
  String.mk (collapseWs s.data false)

/-- JS nullish coalescing `a ?? b`. -/
def jsNullish {α : Type} : Option α → Option α → Option α
  | some v, _ => some v
  | none, b => b

/-- JS `oldId || mint()`: the empty string is falsy, so it is replaced by
a freshly minted identifier exactly like a missing one. -/
def idOrMint (oid : Option String) (mint : Nat → String × Nat) (ctr : Nat) :
    String × Nat :=
  match oid with
  | some s => if s = "" then mint ctr else (s, ctr)
  | none => mint ctr

/-- Mint a `table-<name>-<counter>` identifier; the module-level mutable
`idCounter` is threaded explicitly. -/
def mintTableId (name : String) (ctr : Nat) : String × Nat :=
  ("table-" ++ sanitizeName name ++ "-" ++ toString ctr, ctr + 1)

/-- Mint a `col-<tableId>-<name>-<counter>` identifier. -/
def mintColId (tableId name : String) (ctr : Nat) : String × Nat :=
  ("col-" ++ tableId ++ "-" ++ sanitizeName name ++ "-" ++ toString ctr, ctr + 1)

/-- Lookup in a JS `Map` keyed by table name, as built by
`new Map(tables.map(t => [t.name, t]))`: on duplicate names the later
entry overwrites the earlier one. -/
def tableMapGet (tables : List Table) (name : String) : Option Table :=
  (tables.filter (fun t => t.name == name)).getLast?

/-- Lookup in a JS `Map` keyed by column name; later entries win. -/
def colMapGet (cols : List Column) (name : String) : Option Column :=
  (cols.filter (fun c => c.name == name)).getLast?

/-- Column pass of `reconcileSchemaIds`: each new column keeps the id of
the same-named old column when that id is truthy, otherwise mints one. -/
def reconcileColumns (oldCols : List Column) (tableId : String) :
    List Column → Nat → List Column × Nat
  | [], ctr => ([], ctr)
  | c :: rest, ctr =>
    let oldColumn := colMapGet oldCols c.name
    let idc := idOrMint (oldColumn.bind Column.id) (mintColId tableId c.name) ctr
    let restc := reconcileColumns oldCols tableId rest idc.2
    ({ c with id := some idc.1 } :: restc.1, restc.2)

/-- Per-table step of `reconcileSchemaIds`: match by name against the old
schema, keep the old id when truthy, take the new position when provided
(`newTable.x ?? oldTable?.x`), and reconcile the columns by name. -/
def reconcileTable (oldSchema : Schema) (t : Table) (ctr : Nat) : Table × Nat :=
  let oldTable := tableMapGet oldSchema.tables t.name
  let idc := idOrMint (oldTable.bind Table.id) (mintTableId t.name) ctr
  let oldCols := (oldTable.map Table.columns).getD []
  let colsc := reconcileColumns oldCols idc.1 t.columns idc.2
  ({ t with
      id := some idc.1
      x := jsNullish t.x (oldTable.bind Table.x)
      y := jsNullish t.y (oldTable.bind Table.y)
      columns := colsc.1 }, colsc.2)

/-- Table list pass of `reconcileSchemaIds`. -/
def reconcileTables (oldSchema : Schema) : List Table → Nat → List Table × Nat
  | [], ctr => ([], ctr)
  | t :: rest, ctr =>
    let tc := reconcileTable oldSchema t ctr
    let restc := reconcileTables oldSchema rest tc.2
    (tc.1 :: restc.1, restc.2)

/-- `reconcileSchemaIds(newSchema, oldSchema)`: re-attach the old
schema's identifiers and positions to a freshly produced schema. -/
def reconcileSchemaIds (newSchema oldSchema : Schema) (ctr : Nat) :
    Schema × Nat :=
  let tsc := reconcileTables oldSchema newSchema.tables ctr
  (⟨tsc.1⟩, tsc.2)

/-- Schema whose single table carries the empty string as identifier. -/
def emptyIdSchema : Schema :=
  ⟨[{ id := some "", name := "t", columns := [], x := none, y := none }]⟩

/-- Schema with properly minted, non-empty identifiers. -/
def reconcileSampleSchema : Schema :=
  ⟨[{ id := some "table-users-0"
      name := "users"
      columns := [{ id := some "col-table-users-0-id-1", name := "id",
                    type := "INTEGER", isPrimaryKey := true,
                    isForeignKey := false, foreignKeyTable := none,
                    foreignKeyColumn := none, constraints := ["NOT NULL"] }]
      x := some 10, y := some 20 }]⟩

/-- Concrete new table carrying its own y position but no x position. -/
def wNewT : Table := { id := some "x", name := "t", columns := [], x := none, y := some 7 }

/-- Concrete old table with both positions and a stable id. -/
def wOldT : Table := { id := some "old-id", name := "t", columns := [], x := some 3, y := some 4 }

/-- Singleton schema around `wNewT`. -/
def wNew : Schema := ⟨[wNewT]⟩

/-- Singleton schema around `wOldT`. -/
def wOld : Schema := ⟨[wOldT]⟩

/-- New schema whose table provides position 5, matched against an old
schema whose table holds position 3. -/
def posNewSchema : Schema :=
  ⟨[{ id := some "a", name := "t", columns := [], x := some 5, y := none }]⟩

/-- Old counterpart of `posNewSchema` with stored position 3. -/
def posOldSchema : Schema :=
  ⟨[{ id := some "a", name := "t", columns := [], x := some 3, y := none }]⟩

/-- JS template interpolation of a possibly-undefined string
(`${maybeUndefined}` renders as the text `undefined`). -/
def optStr : Option String → String
  | some s => s
  | none => "undefined"

/-- First candidate in the list that is not already taken. -/
def firstUnused (taken : List String) : List String → String
  | [] => ""
  | c :: rest => if c ∈ taken then firstUnused taken rest else c

/-- Name-minting loop shared by add-table (`new_table`, `new_table_2`,
…), add-column, 1-N foreign-key columns (`users_id`, `users_id_2`, …)
and junction tables: try `base`, then `base_2`, `base_3`, … until a name
is unused.  `taken.length + 1` candidates always contain a free one. -/
def mintUnique (taken : List String) (base : String) : String :=
  firstUnused taken
    ((List.range (taken.length + 1)).map
      (fun k => if k = 0 then base else base ++ "_" ++ toString (k + 1)))

/-- Mutate the first list element satisfying `pred`, in the JS pattern
`const x = arr.find(...); x.field = ...` over a deep-cloned array. -/
def updateFirst (pred : Table → Bool) (f : Table → Table) : List Table → List Table
  | [] => []
  | t :: rest => if pred t then f t :: rest else t :: updateFirst pred f rest

/-- Connection / derived-link type `'1-to-n' | 'n-to-n'`. -/
inductive LinkType where
  | oneToN
  | nToN
deriving DecidableEq

/-- Average of two optional coordinates, used for junction-table
placement.  JS yields NaN when either side is undefined; that absent
result is modelled as `none`. -/
def midQ : Option ℚ → Option ℚ → Option ℚ
  | some a, some b => some ((a + b) / 2)
  | _, _ => none

/-- `handleAddTable`: mint a fresh `new_table*` name, create the table
with a single integer primary-key `id` column at the given position,
post a first chat message when the transcript is empty, and commit. -/
def handleAddTable (p : Project) (pos : Option (ℚ × ℚ)) (now : Nat) : Project :=
  let currentSchema := p.schema.getD ⟨[]⟩
  let newTableName := mintUnique (currentSchema.tables.map Table.name) "new_table"
  let tableId := "table-" ++ newTableName ++ "-" ++ toString now
  let newTable : Table :=
    { id := some tableId
      name := newTableName
      columns := [{ id := some (tableId ++ "-col-id"), name := "id",
                    type := "INTEGER", isPrimaryKey := true,
                    isForeignKey := false, foreignKeyTable := none,
                    foreignKeyColumn := none, constraints := ["NOT NULL"] }]
      x := pos.map Prod.fst
      y := pos.map Prod.snd }
  let updatedSchema : Schema := ⟨currentSchema.tables ++ [newTable]⟩
  let p1 := if p.messages.isEmpty then
      { p with messages := [⟨MsgSender.ai,
          "Started a new schema and added table \"" ++ newTableName ++ "\"."⟩] }
    else p
  commitSchemaChange p1 (some updatedSchema)

/-- `handleAddConnection(sourceTableId, targetTableId, type)`: add a
foreign-key column (1-to-N) or synthesize a junction table (N-to-N),
with the primary-key validations of the source. -/
def handleAddConnection (p : Project) (sourceTableId targetTableId : String)
    (ty : LinkType) (now : Nat) : Project × Option String :=
  match p.schema with
  | none => (p, none)
  | some schema =>
    match schema.tables.find? (fun t => t.id == some sourceTableId),
        schema.tables.find? (fun t => t.id == some targetTableId) with
    | some sourceTable, some targetTable =>
      (match ty with
      | LinkType.oneToN =>
        match targetTable.columns.find? (fun c => c.isPrimaryKey) with
        | none =>
          (p, some ("Cannot create connection: Target table \"" ++
            targetTable.name ++ "\" has no primary key."))
        | some targetPk =>
          let fkColumnName :=
            mintUnique (sourceTable.columns.map Column.name) (targetTable.name ++ "_id")
          let newFkColumn : Column :=
            { id := some ("col-" ++ optStr sourceTable.id ++ "-" ++ fkColumnName ++
                "-" ++ toString now)
              name := fkColumnName
              type := targetPk.type
              isPrimaryKey := false
              isForeignKey := true
              foreignKeyTable := some targetTable.name
              foreignKeyColumn := some targetPk.name
              constraints := [] }
          let tables2 := updateFirst (fun t => t.id == some sourceTableId)
            (fun t => { t with columns := t.columns ++ [newFkColumn] }) schema.tables
          (commitSchemaChange p (some ⟨tables2⟩), none)
      | LinkType.nToN =>
        match sourceTable.columns.find? (fun c => c.isPrimaryKey),
            targetTable.columns.find? (fun c => c.isPrimaryKey) with
        | some sourcePk, some targetPk =>
          let junctionTableName :=
            mintUnique (schema.tables.map Table.name)
              (sourceTable.name ++ "_" ++ targetTable.name)
          let junctionTableId := "table-" ++ junctionTableName ++ "-" ++ toString now
          let fkCol1 : Column :=
            { id := some ("col-" ++ junctionTableId ++ "-" ++ sourceTable.name ++
                "_id-" ++ toString now)
              name := sourceTable.name ++ "_id"
              type := sourcePk.type
              isPrimaryKey := true
              isForeignKey := true
              foreignKeyTable := some sourceTable.name
              foreignKeyColumn := some sourcePk.name
              constraints := ["NOT NULL"] }
          let fkCol2 : Column :=
            { id := some ("col-" ++ junctionTableId ++ "-" ++ targetTable.name ++
                "_id-" ++ toString now)
              name := targetTable.name ++ "_id"
              type := targetPk.type
              isPrimaryKey := true
              isForeignKey := true
              foreignKeyTable := some targetTable.name
              foreignKeyColumn := some targetPk.name
              constraints := ["NOT NULL"] }
          let junctionTable : Table :=
            { id := some junctionTableId
              name := junctionTableName
              columns := [fkCol1, fkCol2]
              x := midQ sourceTable.x targetTable.x
              y := midQ sourceTable.y targetTable.y }
          (commitSchemaChange p (some ⟨schema.tables ++ [junctionTable]⟩), none)
        | _, _ =>
          (p, some "Cannot create N-N connection: Both tables must have a primary key."))
    | _, _ => (p, some "Source or target table not found for connection.")

/-- `handleUpdateTable(tableId, newName)`: rename a table after the
duplicate-name validation, propagating the new name into every
foreign-key reference to the old name. -/
def handleUpdateTable (p : Project) (tableId newName : String) :
    Project × Option String :=
  match p.schema with
  | none => (p, none)
  | some schema =>
    if schema.tables.any (fun t => t.name == newName && t.id != some tableId) then
      (p, some ("A table with the name \"" ++ newName ++ "\" already exists."))
    else
      match schema.tables.find? (fun t => t.id == some tableId) with
      | none => (p, none)
      | some tbl =>
        if tbl.name = "" then (p, none)
        else
          let oldName := tbl.name
          let renamed := updateFirst (fun t => t.id == some tableId)
            (fun t => { t with name := newName }) schema.tables
          let updated := renamed.map (fun t =>
            { t with columns := t.columns.map (fun c =>
                if c.isForeignKey && c.foreignKeyTable == some oldName then
                  { c with foreignKeyTable := some newName }
                else c) })
          (commitSchemaChange p (some ⟨updated⟩), none)

/-- `handleUpdateTablePosition`: write a released drag coordinate into
the table's stored position.  Note this goes through
`updateActiveProject`, NOT `commitSchemaChange`: no history entry. -/
def handleUpdateTablePosition (p : Project) (tableId : String) (pos : ℚ × ℚ) :
    Project :=
  match p.schema with
  | none => p
  | some schema =>
    { p with schema := some ⟨schema.tables.map (fun t =>
        if t.id == some tableId then { t with x := some pos.1, y := some pos.2 }
        else t)⟩ }

/-- First foreign-key column (paired with its owning table) that
references the given (table-name, column-name) pair. -/
def findReferencing (schema : Schema) (tname cname : String) :
    Option (Table × Column) :=
  schema.tables.findSome? (fun t =>
    (t.columns.find? (fun c => c.isForeignKey &&
        c.foreignKeyTable == some tname &&
        c.foreignKeyColumn == some cname)).map (fun c => (t, c)))

/-- `handleDeleteColumn(tableId, columnId)`: refuse when any foreign key
references the column, otherwise remove it and commit. -/
def handleDeleteColumn (p : Project) (tableId columnId : String) :
    Project × Option String :=
  match p.schema with
  | none => (p, none)
  | some schema =>
    match schema.tables.find? (fun t => t.id == some tableId) with
    | none => (p, none)
    | some tableToDeleteFrom =>
      match tableToDeleteFrom.columns.find? (fun c => c.id == some columnId) with
      | none => (p, none)
      | some columnToDelete =>
        match findReferencing schema tableToDeleteFrom.name columnToDelete.name with
        | some tc =>
          (p, some ("Cannot delete column \"" ++ columnToDelete.name ++
            "\". It is referenced by \"" ++ tc.1.name ++ "." ++ tc.2.name ++ "\"."))
        | none =>
          let updatedTables := schema.tables.map (fun t =>
            if t.id == some tableId then
              { t with columns := t.columns.filter (fun c => !(c.id == some columnId)) }
            else t)
          (commitSchemaChange p (some ⟨updatedTables⟩), none)

/-- `handleDeleteTable(tableId)`: requires caller confirmation; cascades
by dropping, from every remaining table, the foreign-key columns that
referenced the deleted table. -/
def handleDeleteTable (p : Project) (tableId : String) (confirmed : Bool) : Project :=
  match p.schema with
  | none => p
  | some schema =>
    match schema.tables.find? (fun t => t.id == some tableId) with
    | none => p
    | some tableToDelete =>
      if !confirmed then p
      else
        let remainingTables := schema.tables.filter (fun t => !(t.id == some tableId))
        let cleanedTables := remainingTables.map (fun t =>
          { t with columns := t.columns.filter (fun c =>
              !(c.isForeignKey && c.foreignKeyTable == some tableToDelete.name)) })
        commitSchemaChange p (some ⟨cleanedTables⟩)

/-- Empty project the C8 scenario starts from. -/
def scenarioP0 : Project :=
  { schema := some ⟨[]⟩, messages := [], ddl := "", undoStack := [], redoStack := [] }

/-- Scenario step 1: add a table (becomes `new_table`). -/
def scenarioP1 : Project := handleAddTable scenarioP0 none 1

/-- Scenario step 2: rename it to `users`. -/
def scenarioP2 : Project := (handleUpdateTable scenarioP1 "table-new_table-1" "users").1

/-- Scenario step 3: add a second table (becomes `new_table` again). -/
def scenarioP3 : Project := handleAddTable scenarioP2 none 2

/-- Scenario step 4: rename it to `posts`. -/
def scenarioP4 : Project := (handleUpdateTable scenarioP3 "table-new_table-2" "posts").1

/-- Scenario step 5: add the 1-to-N connection posts → users. -/
def scenarioP5 : Project :=
  (handleAddConnection scenarioP4 "table-new_table-2" "table-new_table-1"
    LinkType.oneToN 3).1

/-- Scenario step 6: delete table `users` (confirmed). -/
def scenarioP6 : Project := handleDeleteTable scenarioP5 "table-new_table-1" true

/-- Expected `users.id` primary-key column of the scenario. -/
def usersPkColumnExp : Column :=
  { id := some "table-new_table-1-col-id", name := "id", type := "INTEGER",
    isPrimaryKey := true, isForeignKey := false, foreignKeyTable := none,
    foreignKeyColumn := none, constraints := ["NOT NULL"] }

/-- Expected `users` table after step 4. -/
def usersTableExp : Table :=
  { id := some "table-new_table-1", name := "users",
    columns := [usersPkColumnExp], x := none, y := none }

/-- Expected `posts.id` primary-key column. -/
def postsPkColumnExp : Column :=
  { id := some "table-new_table-2-col-id", name := "id", type := "INTEGER",
    isPrimaryKey := true, isForeignKey := false, foreignKeyTable := none,
    foreignKeyColumn := none, constraints := ["NOT NULL"] }

/-- Expected foreign-key column gained by `posts` in step 5. -/
def postsFkColumnExp : Column :=
  { id := some "col-table-new_table-2-users_id-3", name := "users_id",
    type := "INTEGER", isPrimaryKey := false, isForeignKey := true,
    foreignKeyTable := some "users", foreignKeyColumn := some "id",
    constraints := [] }

/-- Expected `posts` table after step 5. -/
def postsTableExp : Table :=
  { id := some "table-new_table-2", name := "posts",
    columns := [postsPkColumnExp, postsFkColumnExp], x := none, y := none }

/-- Expected `posts` table after `users` is deleted in step 6. -/
def postsAfterDeleteExp : Table :=
  { id := some "table-new_table-2", name := "posts",
    columns := [postsPkColumnExp], x := none, y := none }

/-- Two tables with a name collision waiting to happen. -/
def vTableA : Table := ⟨some "a", "users", [], none, none⟩

/-- Conflicting sibling of `vTableA`. -/
def vTableB : Table := ⟨some "b", "posts", [], none, none⟩

/-- Project for the duplicate-rename validation. -/
def vProjDup : Project :=
  { schema := some ⟨[vTableA, vTableB]⟩, messages := [], ddl := "d",
    undoStack := [], redoStack := [] }

/-- Source table of the missing-primary-key validation. -/
def vSrcTable : Table :=
  ⟨some "s1", "src", [⟨some "c1", "data", "TEXT", false, false, none, none, []⟩],
    none, none⟩

/-- Target table without any primary key. -/
def vTgtTable : Table := ⟨some "t1", "tgt", [], none, none⟩

/-- Project for the missing-primary-key validation. -/
def vProjNoPk : Project :=
  { schema := some ⟨[vSrcTable, vTgtTable]⟩, messages := [], ddl := "d",
    undoStack := [], redoStack := [] }

/-- Primary-key column referenced by a foreign key elsewhere. -/
def vUsersIdCol : Column := ⟨some "uc", "id", "INTEGER", true, false, none, none, []⟩

/-- Table owning `vUsersIdCol`. -/
def vUsersTable : Table := ⟨some "u", "users", [vUsersIdCol], none, none⟩

/-- Foreign-key column referencing `users.id`. -/
def vPostsFkCol : Column :=
  ⟨some "pc", "users_id", "INTEGER", false, true, some "users", some "id", []⟩

/-- Table owning `vPostsFkCol`. -/
def vPostsTable : Table := ⟨some "p", "posts", [vPostsFkCol], none, none⟩

/-- Project for the referenced-column-deletion validation. -/
def vProjRef : Project :=
  { schema := some ⟨[vUsersTable, vPostsTable]⟩, messages := [], ddl := "d",
    undoStack := [], redoStack := [] }

/-- Table carrying a foreign key to `users`, for the rename witness. -/
def rPostsTable : Table :=
  ⟨some "p", "posts", [⟨some "pc", "users_id", "INTEGER", false, true,
    some "users", some "id", []⟩], none, none⟩

/-- Renamed table of the rename witness. -/
def rUsersTable : Table := ⟨some "u", "users", [], some 1, some 2⟩

/-- Project for the rename-propagation witness. -/
def rProj : Project :=
  { schema := some ⟨[rUsersTable, rPostsTable]⟩, messages := [], ddl := "d",
    undoStack := [], redoStack := [] }

/-- Renderable graph link (SchemaGraph `GraphLink`): endpoints are the
connected tables' ids. -/
structure GraphLink where
  source : Option String
  target : Option String
  type : LinkType
deriving DecidableEq

/-- Renderable graph node (SchemaGraph `GraphNode`). -/
structure GraphNode where
  id : Option String
  table : Table
  width : ℚ
  height : ℚ
  fx : Option ℚ
  fy : Option ℚ
deriving DecidableEq

/-- Fixed node width. -/
def tableWidthConst : ℚ := 200

/-- Node header height. -/
def tableHeaderHeight : ℚ := 45

/-- Per-column row height. -/
def columnHeight : ℚ := 28

/-- Node footer height. -/
def tableFooterHeight : ℚ := 40

/-- Node rectangle height: header + one row per column + footer. -/
def tableHeight (t : Table) : ℚ :=
  tableHeaderHeight + (t.columns.length : ℚ) * columnHeight + tableFooterHeight

/-- Structural junction-table test: exactly two columns, two primary
keys and two foreign keys (recomputed on every derivation, never
stored). -/
def isJunction (t : Table) : Bool :=
  t.columns.length == 2 &&
    (t.columns.filter (fun c => c.isPrimaryKey)).length == 2 &&
    (t.columns.filter (fun c => c.isForeignKey)).length == 2

/-- JS `Set.add`: append unless present, keeping insertion order. -/
def jsSetAdd (s : List (Option String)) (a : Option String) :
    List (Option String) :=
  if a ∈ s then s else s ++ [a]

/-- Ids of the junction tables of a schema, in insertion order. -/
def junctionTableIds (schema : Schema) : List (Option String) :=
  schema.tables.foldl (fun s t => if isJunction t then jsSetAdd s t.id else s) []

/-- JS truthiness of an optional string. -/
def isTruthy : Option String → Bool
  | some s => s != ""
  | none => false

/-- Resolve a foreign-key column's target table by name. -/
def fkTargetTable (schema : Schema) (c : Column) : Option Table :=
  c.foreignKeyTable.bind (tableMapGet schema.tables)

/-- N-to-N edge contributed by one junction-table id: look the table up
by id, read its two foreign keys, and emit the edge only when both
referenced tables resolve (`if (table1 && table2)`). -/
def junctionEdgeOfId (schema : Schema) (jid : Option String) : Option GraphLink :=
  match schema.tables.find? (fun t => t.id == jid) with
  | none => none
  | some jt =>
    let fks := jt.columns.filter (fun c => c.isForeignKey)
    match fks[0]?, fks[1]? with
    | some fk0, some fk1 =>
      match fkTargetTable schema fk0, fkTargetTable schema fk1 with
      | some table1, some table2 => some ⟨table1.id, table2.id, LinkType.nToN⟩
      | _, _ => none
    | _, _ => none

/-- All collapsed N-to-N edges of a schema. -/
def junctionEdges (schema : Schema) : List GraphLink :=
  (junctionTableIds schema).filterMap (junctionEdgeOfId schema)

/-- 1-to-N edges contributed by one table: none when the table is itself
a junction; otherwise one edge per foreign-key column whose target
resolves and is not a junction table. -/
def fkEdgesOfTable (schema : Schema) (jIds : List (Option String)) (t : Table) :
    List GraphLink :=
  if t.id ∈ jIds then []
  else
    t.columns.filterMap (fun c =>
      if c.isForeignKey && isTruthy c.foreignKeyTable then
        match fkTargetTable schema c with
        | some targetTable =>
          if targetTable.id ∈ jIds then none
          else some ⟨t.id, targetTable.id, LinkType.oneToN⟩
        | none => none
      else none)

/-- All 1-to-N edges of a schema. -/
def fkEdges (schema : Schema) : List GraphLink :=
  schema.tables.flatMap (fkEdgesOfTable schema (junctionTableIds schema))

/-- The derived links: collapsed junction edges, then foreign-key edges. -/
def deriveLinks (schema : Schema) : List GraphLink :=
  junctionEdges schema ++ fkEdges schema

/-- The derived nodes: every non-junction table, with its rectangle
dimensions and pinned position. -/
def deriveNodes (schema : Schema) : List GraphNode :=
  (schema.tables.filter (fun t => !decide (t.id ∈ junctionTableIds schema))).map
    (fun t => { id := t.id, table := t, width := tableWidthConst,
                height := tableHeight t, fx := t.x, fy := t.y })

/-- Primary key of the `students` sample table. -/
def jStudentsPk : Column := ⟨some "spk", "id", "INTEGER", true, false, none, none, []⟩

/-- Sample `students` table. -/
def jStudents : Table := ⟨some "s", "students", [jStudentsPk], none, none⟩

/-- Primary key of the `courses` sample table. -/
def jCoursesPk : Column := ⟨some "cpk", "id", "INTEGER", true, false, none, none, []⟩

/-- Sample `courses` table. -/
def jCourses : Table := ⟨some "c", "courses", [jCoursesPk], none, none⟩

/-- First junction foreign key, to `students.id`. -/
def jFk1 : Column :=
  ⟨some "jf1", "students_id", "INTEGER", true, true, some "students", some "id",
    ["NOT NULL"]⟩

/-- Second junction foreign key, to `courses.id`. -/
def jFk2 : Column :=
  ⟨some "jf2", "courses_id", "INTEGER", true, true, some "courses", some "id",
    ["NOT NULL"]⟩

/-- Sample junction table `students_courses`. -/
def jJunction : Table := ⟨some "j", "students_courses", [jFk1, jFk2], none, none⟩

/-- First column of the wide all-keys table. -/
def jWideC1 : Column :=
  ⟨some "w1", "a", "INTEGER", true, true, some "students", some "id", []⟩

/-- Second column of the wide all-keys table. -/
def jWideC2 : Column :=
  ⟨some "w2", "b", "INTEGER", true, true, some "courses", some "id", []⟩

/-- Third column of the wide all-keys table. -/
def jWideC3 : Column :=
  ⟨some "w3", "c", "INTEGER", true, true, some "students", some "id", []⟩

/-- Three-column table whose columns are all primary+foreign keys. -/
def jWide : Table := ⟨some "w", "wide", [jWideC1, jWideC2, jWideC3], none, none⟩

/-- Sample schema exercising junction collapsing. -/
def jSchema : Schema := ⟨[jStudents, jCourses, jJunction, jWide]⟩

/-- Junction foreign key whose target table does not exist. -/
def uFk1 : Column :=
  ⟨some "uf1", "x_id", "INTEGER", true, true, some "ghost1", some "id", []⟩

/-- Second dangling junction foreign key. -/
def uFk2 : Column :=
  ⟨some "uf2", "y_id", "INTEGER", true, true, some "ghost2", some "id", []⟩

/-- Junction table whose foreign-key targets do not resolve. -/
def uJunction : Table := ⟨some "uj", "lost", [uFk1, uFk2], none, none⟩

/-- Ordinary companion table. -/
def uPlain : Table :=
  ⟨some "up", "plain", [⟨some "upc", "id", "INTEGER", true, false, none, none, []⟩],
    none, none⟩

/-- Schema containing the dangling junction. -/
def uSchema : Schema := ⟨[uPlain, uJunction]⟩

/-- Tool modes `'select' | 'addTable' | 'addConnection-1-n' |
'addConnection-n-n'`. -/
inductive ActiveTool where
  | select
  | addTable
  | addConnectionOneN
  | addConnectionNN
deriving DecidableEq

/-- `activeTool.startsWith('addConnection')`. -/
def isConnectionTool : ActiveTool → Bool
  | ActiveTool.addConnectionOneN => true
  | ActiveTool.addConnectionNN => true
  | _ => false

/-- SchemaGraph view state relevant to the connection protocol. -/
structure GraphUIState where
  activeTool : ActiveTool
  connectionSource : Option String
deriving DecidableEq

/-- A connection request handed to `onAddConnection`. -/
structure ConnRequest where
  source : String
  target : String
  type : LinkType
deriving DecidableEq

/-- Node click handler of the connection protocol.  The idle test is the
JS falsy check `if (!connectionSource)`, true for a missing AND for an
empty-string source: either way the click (re-)selects the node as the
source.  With a truthy source, a second click commits an edge only when
the node differs, and in either case clears the source and returns the
tool to select. -/
def handleNodeClick (st : GraphUIState) (nodeId : String) :
    GraphUIState × Option ConnRequest :=
  if isConnectionTool st.activeTool then
    match st.connectionSource with
    | none => ({ st with connectionSource := some nodeId }, none)
    | some src =>
      if src = "" then
        ({ st with connectionSource := some nodeId }, none)
      else
        let req := if src = nodeId then none
          else some ⟨src, nodeId,
            if st.activeTool = ActiveTool.addConnectionNN then LinkType.nToN
            else LinkType.oneToN⟩
        (⟨ActiveTool.select, none⟩, req)
  else (st, none)

/-- Effect resetting the selected connection source whenever the active
tool changes. -/
def handleToolChange (st : GraphUIState) (newTool : ActiveTool) : GraphUIState :=
  { st with activeTool := newTool, connectionSource := none }

/-- Undoing as many times as there were commits restores the schema and
the undo stack that were in place before the commits. -/
theorem undo_iterate_commits (l : List (Option Schema)) :
    ∀ p : Project,
      (handleUndo^[l.length] (commitsList p l)).schema = p.schema ∧
      (handleUndo^[l.length] (commitsList p l)).undoStack = p.undoStack := by
  induction l with
  | nil =>
    intro p
    simp [commitsList]
  | cons s l ih =>
    intro p
    have hfold : commitsList p (s :: l) = commitsList (commitSchemaChange p s) l := rfl
    rw [List.length_cons, hfold, Function.iterate_succ_apply']
    obtain ⟨h1, h2⟩ := ih (commitSchemaChange p s)
    set q := handleUndo^[l.length] (commitsList (commitSchemaChange p s) l) with hq
    have hu : q.undoStack = p.undoStack ++ [p.schema] := by
      rw [h2]
      rfl
    constructor
    · show (handleUndo q).schema = p.schema
      unfold handleUndo
      rw [hu, List.getLast?_concat]
    · show (handleUndo q).undoStack = p.undoStack
      unfold handleUndo
      rw [hu, List.getLast?_concat]
      simp

/-- C2: for any sequence of N schema mutations committed through the
command history, undoing N times restores the original schema; a redo
immediately after an undo restores the schema the undo removed; and a
fresh commit after an undo empties the redo stack. -/
theorem undo_redo_round_trip (p : Project) (l : List (Option Schema)) (s : Option Schema)
    (h : p.undoStack ≠ []) :
    (handleUndo^[l.length] (commitsList p l)).schema = p.schema ∧
    (handleRedo (handleUndo p)).schema = p.schema ∧
    (commitSchemaChange (handleUndo p) s).redoStack = [] := by
  refine ⟨(undo_iterate_commits l p).1, ?_, rfl⟩
  obtain ⟨prev, hprev⟩ : ∃ prev, p.undoStack.getLast? = some prev := by
    cases hl : p.undoStack.getLast? with
    | none =>
      exact absurd (List.getLast?_eq_none_iff.mp hl) h
    | some prev =>
      exact ⟨prev, rfl⟩
  unfold handleUndo
  rw [hprev]
  unfold handleRedo
  simp

/-- Witness for `undo_redo_round_trip` at a concrete project. -/
theorem undo_redo_round_trip_witness :
    (handleUndo^[([some sampleSchema] : List (Option Schema)).length]
        (commitsList sampleProject [some sampleSchema])).schema = sampleProject.schema ∧
    (handleRedo (handleUndo sampleProject)).schema = sampleProject.schema ∧
    (commitSchemaChange (handleUndo sampleProject) none).redoStack = [] :=
  undo_redo_round_trip sampleProject [some sampleSchema] none (by decide)

/-- Under unique names, filtering a list for one element's name returns
exactly that element. -/
theorem filter_name_eq_singleton {α : Type} (f : α → String) (t : α) :
    ∀ l : List α, (l.map f).Nodup → t ∈ l →
      l.filter (fun u => f u == f t) = [t] := by
  intro l
  induction l with
  | nil => intro _ h; cases h
  | cons u rest ih =>
    intro hnodup hmem
    simp only [List.map_cons, List.nodup_cons] at hnodup
    rcases List.mem_cons.mp hmem with heq | hmem2
    · subst heq
      have hrest : rest.filter (fun v => f v == f t) = [] := by
        rw [List.filter_eq_nil_iff]
        intro v hv
        simp only [beq_iff_eq]
        intro hfv
        exact hnodup.1 (by rw [← hfv]; exact List.mem_map_of_mem f hv)
      simp [List.filter_cons, hrest]
    · have hne : (f u == f t) = false := by
        simp only [beq_eq_false_iff_ne, ne_eq]
        intro hfe
        exact hnodup.1 (by rw [hfe]; exact List.mem_map_of_mem f hmem2)
      simp [List.filter_cons, hne, ih hnodup.2 hmem2]

/-- With unique table names, the name map resolves each table to itself. -/
theorem tableMapGet_self (tables : List Table) (t : Table)
    (hnames : (tables.map Table.name).Nodup) (hmem : t ∈ tables) :
    tableMapGet tables t.name = some t := by
  unfold tableMapGet
  rw [filter_name_eq_singleton Table.name t tables hnames hmem]
  rfl

/-- With unique column names, the name map resolves each column to
itself. -/
theorem colMapGet_self (cols : List Column) (c : Column)
    (hnames : (cols.map Column.name).Nodup) (hmem : c ∈ cols) :
    colMapGet cols c.name = some c := by
  unfold colMapGet
  rw [filter_name_eq_singleton Column.name c cols hnames hmem]
  rfl

/-- Reconciling a column list against itself is the identity when every
column resolves to itself and has a non-empty id. -/
theorem reconcileColumns_self (oldCols : List Column) (tid : String) :
    ∀ (l : List Column) (ctr : Nat),
      (∀ c ∈ l, colMapGet oldCols c.name = some c ∧
        c.id ≠ none ∧ c.id ≠ some "") →
      reconcileColumns oldCols tid l ctr = (l, ctr) := by
  intro l
  induction l with
  | nil => intro ctr _; rfl
  | cons c rest ih =>
    intro ctr h
    obtain ⟨hlook, hnn, hne⟩ := h c (List.mem_cons_self c rest)
    obtain ⟨j, hid⟩ : ∃ j, c.id = some j := by
      cases hj : c.id with
      | none => exact absurd hj hnn
      | some j => exact ⟨j, rfl⟩
    have hj : j ≠ "" := by
      intro hj0
      exact hne (by rw [hid, hj0])
    have h1 : idOrMint ((colMapGet oldCols c.name).bind Column.id)
        (mintColId tid c.name) ctr = (j, ctr) := by
      rw [hlook, Option.some_bind, hid]
      simp [idOrMint, hj]
    have hrest := ih ctr (fun d hd => h d (List.mem_cons_of_mem c hd))
    have hcrec : { c with id := some j } = c := by
      cases c
      simp_all
    simp only [reconcileColumns, h1, hrest, hcrec]

/-- Reconciling a table against the schema that contains it is the
identity when names are unique and ids are present and non-empty. -/
theorem reconcileTable_self (s : Schema) (t : Table) (ctr : Nat)
    (hnames : (s.tables.map Table.name).Nodup) (hmem : t ∈ s.tables)
    (hid : t.id ≠ none ∧ t.id ≠ some "")
    (hcnames : (t.columns.map Column.name).Nodup)
    (hcids : ∀ c ∈ t.columns, c.id ≠ none ∧ c.id ≠ some "") :
    reconcileTable s t ctr = (t, ctr) := by
  obtain ⟨i, hi⟩ : ∃ i, t.id = some i := by
    cases hj : t.id with
    | none => exact absurd hj hid.1
    | some i => exact ⟨i, rfl⟩
  have hine : i ≠ "" := by
    intro h0
    exact hid.2 (by rw [hi, h0])
  have hlook := tableMapGet_self s.tables t hnames hmem
  have h1 : idOrMint t.id (mintTableId t.name) ctr = (i, ctr) := by
    rw [hi]
    simp [idOrMint, hine]
  have hcols : reconcileColumns t.columns i t.columns ctr = (t.columns, ctr) :=
    reconcileColumns_self t.columns i t.columns ctr
      (fun c hc => ⟨colMapGet_self t.columns c hcnames hc, hcids c hc⟩)
  have hx : jsNullish t.x t.x = t.x := by cases t.x <;> rfl
  have hy : jsNullish t.y t.y = t.y := by cases t.y <;> rfl
  have h2 : reconcileTable s t ctr =
      ({ id := some i
         name := t.name
         columns := (reconcileColumns t.columns i t.columns ctr).1
         x := jsNullish t.x t.x
         y := jsNullish t.y t.y },
        (reconcileColumns t.columns i t.columns ctr).2) := by
    simp [reconcileTable, hlook, h1]
  rw [h2, hcols, hx, hy]
  cases t with
  | mk tid tname tcols tx ty =>
    simp_all

/-- Table-list version of `reconcileTable_self`. -/
theorem reconcileTables_self (s : Schema)
    (hnames : (s.tables.map Table.name).Nodup)
    (hids : ∀ t ∈ s.tables, (t.id ≠ none ∧ t.id ≠ some "") ∧
        (t.columns.map Column.name).Nodup ∧
        ∀ c ∈ t.columns, c.id ≠ none ∧ c.id ≠ some "") :
    ∀ (l : List Table) (ctr : Nat), (∀ t ∈ l, t ∈ s.tables) →
      reconcileTables s l ctr = (l, ctr) := by
  intro l
  induction l with
  | nil => intro ctr _; rfl
  | cons t rest ih =>
    intro ctr hsub
    have hmem := hsub t (List.mem_cons_self t rest)
    obtain ⟨hidt, hcn, hcids⟩ := hids t hmem
    have h1 : reconcileTable s t ctr = (t, ctr) :=
      reconcileTable_self s t ctr hnames hmem hidt hcn hcids
    have h2 := ih ctr (fun u hu => hsub u (List.mem_cons_of_mem t hu))
    simp only [reconcileTables, h1, h2]

/-- C3 (amended): for a schema whose tables and columns all carry
non-empty identifiers, with unique table names and per-table unique
column names, reconciling the schema against itself returns the schema
(and the id counter) unchanged: identifiers and positions are identical
to the input. -/
theorem reconcile_self_preserves (s : Schema) (ctr : Nat)
    (hnames : (s.tables.map Table.name).Nodup)
    (hids : ∀ t ∈ s.tables, (t.id ≠ none ∧ t.id ≠ some "") ∧
        (t.columns.map Column.name).Nodup ∧
        ∀ c ∈ t.columns, c.id ≠ none ∧ c.id ≠ some "") :
    reconcileSchemaIds s s ctr = (s, ctr) := by
  unfold reconcileSchemaIds
  rw [reconcileTables_self s hnames hids s.tables ctr (fun _ h => h)]

/-- Witness for `reconcile_self_preserves` on a concrete schema. -/
theorem reconcile_self_preserves_witness :
    reconcileSchemaIds reconcileSampleSchema reconcileSampleSchema 0 =
      (reconcileSampleSchema, 0) :=
  reconcile_self_preserves reconcileSampleSchema 0 (by decide) (by decide)

/-- C3 counterexample: a table whose identifier is present but empty
satisfies the claim's hypotheses (every table and column carries an
identifier, names are unique) yet self-reconciliation replaces the
identifier with a freshly minted one. -/
theorem reconcile_self_counterexample :
    (∀ t ∈ emptyIdSchema.tables, t.id.isSome ∧
        (t.columns.map Column.name).Nodup ∧ ∀ c ∈ t.columns, c.id.isSome) ∧
    (emptyIdSchema.tables.map Table.name).Nodup ∧
    (reconcileSchemaIds emptyIdSchema emptyIdSchema 0).1.tables.map Table.id ≠
      emptyIdSchema.tables.map Table.id := by
  decide

/-- Each reconciled table is the per-table reconciliation of the input
at the same index, at some intermediate counter value. -/
theorem reconcileTables_get? (os : Schema) :
    ∀ (l : List Table) (ctr k : Nat) (t : Table), l[k]? = some t →
      ∃ c, (reconcileTables os l ctr).1[k]? = some (reconcileTable os t c).1 := by
  intro l
  induction l with
  | nil =>
    intro ctr k t h
    simp at h
  | cons u rest ih =>
    intro ctr k t h
    match k with
    | 0 =>
      simp only [List.getElem?_cons_zero, Option.some.injEq] at h
      subst h
      exact ⟨ctr, by simp [reconcileTables]⟩
    | k + 1 =>
      simp only [List.getElem?_cons_succ] at h
      obtain ⟨c, hc⟩ := ih (reconcileTable os u ctr).2 k t h
      exact ⟨c, by simpa [reconcileTables] using hc⟩

/-- C4 (amended): a table of the new schema that matches an old table by
name keeps the old table's identifier (when that id is non-empty), and
takes the NEW schema's position whenever one is provided, falling back to
the old table's position only when the new table has none. -/
theorem reconcile_matched_table (newS oldS : Schema) (ctr k : Nat)
    (t told : Table) (i : String)
    (hget : newS.tables[k]? = some t)
    (hmatch : tableMapGet oldS.tables t.name = some told)
    (hid : told.id = some i) (hine : i ≠ "") :
    ∃ r, (reconcileSchemaIds newS oldS ctr).1.tables[k]? = some r ∧
      r.id = some i ∧
      (∀ v, t.x = some v → r.x = some v) ∧
      (t.x = none → r.x = told.x) ∧
      (∀ v, t.y = some v → r.y = some v) ∧
      (t.y = none → r.y = told.y) := by
  obtain ⟨c, hc⟩ := reconcileTables_get? oldS newS.tables ctr k t hget
  have hres : (reconcileSchemaIds newS oldS ctr).1.tables =
      (reconcileTables oldS newS.tables ctr).1 := rfl
  refine ⟨(reconcileTable oldS t c).1, by rw [hres]; exact hc, ?_, ?_, ?_, ?_, ?_⟩
  · simp [reconcileTable, hmatch, idOrMint, hid, hine]
  · intro v hv
    simp [reconcileTable, hmatch, hv, jsNullish]
  · intro hv
    simp [reconcileTable, hmatch, hv, jsNullish]
  · intro v hv
    simp [reconcileTable, hmatch, hv, jsNullish]
  · intro hv
    simp [reconcileTable, hmatch, hv, jsNullish]

/-- Witness for `reconcile_matched_table` on concrete schemas. -/
theorem reconcile_matched_table_witness :
    ∃ r, (reconcileSchemaIds wNew wOld 0).1.tables[0]? = some r ∧
      r.id = some "old-id" ∧
      (∀ v, wNewT.x = some v → r.x = some v) ∧
      (wNewT.x = none → r.x = wOldT.x) ∧
      (∀ v, wNewT.y = some v → r.y = some v) ∧
      (wNewT.y = none → r.y = wOldT.y) :=
  reconcile_matched_table wNew wOld 0 0 wNewT wOldT "old-id"
    (by rfl) (by rfl) (by rfl) (by decide)

/-- C4 counterexample: when both the new and the old matched table carry
a position, reconciliation keeps the NEW position (5), not the old one
(3) — the old position does not take precedence as the claim states. -/
theorem reconcile_position_counterexample :
    (reconcileSchemaIds posNewSchema posOldSchema 0).1.tables.map Table.x =
      [some 5] ∧ (some (5 : ℚ) ≠ some (3 : ℚ)) := by
  constructor
  · rfl
  · decide

/-- `updateFirst` preserves list length. -/
theorem updateFirst_length (pred : Table → Bool) (f : Table → Table) :
    ∀ l : List Table, (updateFirst pred f l).length = l.length := by
  intro l
  induction l with
  | nil => rfl
  | cons t rest ih =>
    unfold updateFirst
    by_cases h : pred t = true
    · simp [h]
    · simp [h, ih]

/-- When table ids are unique, updating the first id match updates
exactly the matching index and leaves every other entry unchanged. -/
theorem updateFirst_getElem? (tid : String) (f : Table → Table) :
    ∀ l : List Table, (l.map Table.id).Nodup →
      ∀ (k : Nat) (t : Table), l[k]? = some t →
        (updateFirst (fun u => u.id == some tid) f l)[k]? =
          some (if t.id = some tid then f t else t) := by
  intro l
  induction l with
  | nil =>
    intro _ k t h
    simp at h
  | cons u rest ih =>
    intro hnodup k t hget
    simp only [List.map_cons, List.nodup_cons] at hnodup
    by_cases hu : u.id = some tid
    · have hpu : (u.id == some tid) = true := by simp [hu]
      match k with
      | 0 =>
        simp only [List.getElem?_cons_zero, Option.some.injEq] at hget
        subst hget
        simp [updateFirst, hpu, hu]
      | k + 1 =>
        simp only [List.getElem?_cons_succ] at hget
        have htmem : t ∈ rest := List.getElem?_mem hget
        have hne : ¬ t.id = some tid := by
          intro he
          exact hnodup.1 (by rw [hu, ← he]; exact List.mem_map_of_mem Table.id htmem)
        simp [updateFirst, hpu, hne, hget]
    · have hpu : (u.id == some tid) = false := by simp [hu]
      match k with
      | 0 =>
        simp only [List.getElem?_cons_zero, Option.some.injEq] at hget
        subst hget
        simp [updateFirst, hpu, hu]
      | k + 1 =>
        simp only [List.getElem?_cons_succ] at hget
        simp only [updateFirst, hpu, Bool.false_eq_true, if_false,
          List.getElem?_cons_succ]
        exact ih hnodup.2 k t hget

/-- A member on which the search function succeeds makes `findSome?`
succeed. -/
theorem findSome?_isSome_of_mem {α β : Type} (g : α → Option β) :
    ∀ (l : List α) (a : α), a ∈ l → (g a).isSome → (l.findSome? g).isSome := by
  intro l
  induction l with
  | nil =>
    intro a h
    cases h
  | cons x rest ih =>
    intro a hmem hga
    rcases List.mem_cons.mp hmem with rfl | hmem2
    · obtain ⟨b, hb⟩ := Option.isSome_iff_exists.mp hga
      simp [List.findSome?_cons, hb]
    · cases hgx : g x with
      | some b => simp [List.findSome?_cons, hgx]
      | none =>
        rw [show (x :: rest).findSome? g = rest.findSome? g by
          simp [List.findSome?_cons, hgx]]
        exact ih a hmem2 hga

/-- C6: each of the three validation failures — duplicate table name on
rename, missing target primary key on add-1-to-N-connection, and a
referencing foreign key on delete-column — rejects with an error and
leaves the project state (schema, undo stack, everything) exactly
unchanged: no history entry is created. -/
theorem validation_atomicity :
    (∀ (p : Project) (s : Schema) (tid newName : String) (tconf : Table),
      p.schema = some s → tconf ∈ s.tables → tconf.name = newName →
      tconf.id ≠ some tid →
      (handleUpdateTable p tid newName).1 = p ∧
      (handleUpdateTable p tid newName).2.isSome) ∧
    (∀ (p : Project) (s : Schema) (sid tid : String) (st tt2 : Table) (now : Nat),
      p.schema = some s →
      s.tables.find? (fun t => t.id == some sid) = some st →
      s.tables.find? (fun t => t.id == some tid) = some tt2 →
      tt2.columns.find? (fun c => c.isPrimaryKey) = none →
      (handleAddConnection p sid tid LinkType.oneToN now).1 = p ∧
      (handleAddConnection p sid tid LinkType.oneToN now).2.isSome) ∧
    (∀ (p : Project) (s : Schema) (tid cid : String) (tbl : Table) (col : Column)
        (rt : Table) (rc : Column),
      p.schema = some s →
      s.tables.find? (fun t => t.id == some tid) = some tbl →
      tbl.columns.find? (fun c => c.id == some cid) = some col →
      rt ∈ s.tables → rc ∈ rt.columns → rc.isForeignKey = true →
      rc.foreignKeyTable = some tbl.name → rc.foreignKeyColumn = some col.name →
      (handleDeleteColumn p tid cid).1 = p ∧
      (handleDeleteColumn p tid cid).2.isSome) := by
  refine ⟨?_, ?_, ?_⟩
  · intro p s tid newName tconf hs hmem hname hid
    have hany : s.tables.any (fun t => t.name == newName && t.id != some tid) = true := by
      rw [List.any_eq_true]
      exact ⟨tconf, hmem, by simp [hname, bne_iff_ne, hid]⟩
    constructor <;> simp [handleUpdateTable, hs, hany]
  · intro p s sid tid st tt2 now hs hfs hft hpk
    constructor <;> simp [handleAddConnection, hs, hfs, hft, hpk]
  · intro p s tid cid tbl col rt rc hs hft hfc hrt hrc hfk hfkt hfkc
    have hfind : (rt.columns.find? (fun c => c.isForeignKey &&
        c.foreignKeyTable == some tbl.name &&
        c.foreignKeyColumn == some col.name)).isSome := by
      rw [List.find?_isSome]
      exact ⟨rc, hrc, by simp [hfk, hfkt, hfkc]⟩
    have hgrt : ((rt.columns.find? (fun c => c.isForeignKey &&
        c.foreignKeyTable == some tbl.name &&
        c.foreignKeyColumn == some col.name)).map (fun c => (rt, c))).isSome := by
      obtain ⟨c0, hc0⟩ := Option.isSome_iff_exists.mp hfind
      simp [hc0]
    have href : (findReferencing s tbl.name col.name).isSome := by
      unfold findReferencing
      exact findSome?_isSome_of_mem _ s.tables rt hrt hgrt
    obtain ⟨tc, htc⟩ := Option.isSome_iff_exists.mp href
    constructor <;> simp [handleDeleteColumn, hs, hft, hfc, htc]

/-- Witness for `validation_atomicity`: the three validations on
concrete projects. -/
theorem validation_atomicity_witness :
    ((handleUpdateTable vProjDup "a" "posts").1 = vProjDup ∧
      (handleUpdateTable vProjDup "a" "posts").2.isSome) ∧
    ((handleAddConnection vProjNoPk "s1" "t1" LinkType.oneToN 7).1 = vProjNoPk ∧
      (handleAddConnection vProjNoPk "s1" "t1" LinkType.oneToN 7).2.isSome) ∧
    ((handleDeleteColumn vProjRef "u" "uc").1 = vProjRef ∧
      (handleDeleteColumn vProjRef "u" "uc").2.isSome) :=
  ⟨validation_atomicity.1 vProjDup ⟨[vTableA, vTableB]⟩ "a" "posts" vTableB
      rfl (by decide) rfl (by decide),
    validation_atomicity.2.1 vProjNoPk ⟨[vSrcTable, vTgtTable]⟩ "s1" "t1"
      vSrcTable vTgtTable 7 rfl (by decide) (by decide) (by decide),
    validation_atomicity.2.2 vProjRef ⟨[vUsersTable, vPostsTable]⟩ "u" "uc"
      vUsersTable vUsersIdCol vPostsTable vPostsFkCol rfl (by decide) (by decide)
      (by decide) (by decide) (by decide) (by decide) (by decide)⟩

/-- C7: a successful rename of table A to B updates exactly the
foreign-key references `foreignKeyTable == A` to B everywhere, changes
the renamed table's name field, and leaves every other field of every
table and column unchanged. -/
theorem rename_propagation (p : Project) (s : Schema) (tid newName : String)
    (tbl : Table)
    (hs : p.schema = some s)
    (hnodup : (s.tables.map Table.id).Nodup)
    (hfound : s.tables.find? (fun t => t.id == some tid) = some tbl)
    (hconf : s.tables.any (fun t => t.name == newName && t.id != some tid) = false)
    (hnn : ¬ tbl.name = "") :
    (handleUpdateTable p tid newName).2 = none ∧
    ∃ s2, (handleUpdateTable p tid newName).1.schema = some s2 ∧
      s2.tables.length = s.tables.length ∧
      ∀ (k : Nat) (t : Table), s.tables[k]? = some t →
        (t.id = some tid →
          s2.tables[k]? = some { t with
            name := newName
            columns := t.columns.map (fun c =>
              if c.isForeignKey && c.foreignKeyTable == some tbl.name then
                { c with foreignKeyTable := some newName } else c) }) ∧
        (t.id ≠ some tid →
          s2.tables[k]? = some { t with columns := t.columns.map (fun c =>
              if c.isForeignKey && c.foreignKeyTable == some tbl.name then
                { c with foreignKeyTable := some newName } else c) }) := by
  have hcomp : handleUpdateTable p tid newName =
      (commitSchemaChange p (some ⟨(updateFirst (fun t => t.id == some tid)
          (fun t => { t with name := newName }) s.tables).map (fun t =>
        { t with columns := t.columns.map (fun c =>
            if c.isForeignKey && c.foreignKeyTable == some tbl.name then
              { c with foreignKeyTable := some newName } else c) })⟩), none) := by
    simp [handleUpdateTable, hs, hconf, hfound, hnn]
  refine ⟨by rw [hcomp], _, by rw [hcomp]; rfl, ?_, ?_⟩
  · simp [updateFirst_length]
  · intro k t hget
    have h1 := updateFirst_getElem? tid (fun t => { t with name := newName })
      s.tables hnodup k t hget
    constructor
    · intro htid
      rw [List.getElem?_map, h1]
      simp [htid]
    · intro htid
      rw [List.getElem?_map, h1]
      simp [htid]

/-- Witness for `rename_propagation`: rename `users` to `people` in a
project whose `posts` table carries a foreign key to `users`. -/
theorem rename_propagation_witness :
    (handleUpdateTable rProj "u" "people").2 = none ∧
    ∃ s2, (handleUpdateTable rProj "u" "people").1.schema = some s2 ∧
      s2.tables.length = (⟨[rUsersTable, rPostsTable]⟩ : Schema).tables.length ∧
      ∀ (k : Nat) (t : Table),
        (⟨[rUsersTable, rPostsTable]⟩ : Schema).tables[k]? = some t →
        (t.id = some "u" →
          s2.tables[k]? = some { t with
            name := "people"
            columns := t.columns.map (fun c =>
              if c.isForeignKey && c.foreignKeyTable == some rUsersTable.name then
                { c with foreignKeyTable := some "people" } else c) }) ∧
        (t.id ≠ some "u" →
          s2.tables[k]? = some { t with columns := t.columns.map (fun c =>
              if c.isForeignKey && c.foreignKeyTable == some rUsersTable.name then
                { c with foreignKeyTable := some "people" } else c) }) :=
  rename_propagation rProj ⟨[rUsersTable, rPostsTable]⟩ "u" "people" rUsersTable
    rfl (by decide) (by decide) (by decide) (by decide)

/-- C8: from an empty schema, adding `users` and `posts` (each with an
integer primary key `id`) and then a 1-to-N connection posts → users
gives `posts` exactly one new column `users_id` whose type equals the
type of `users.id`, marked as a foreign key to `users.id`; deleting
`users` (confirmed) then removes `users_id` from `posts` automatically. -/
theorem scenario_users_posts :
    scenarioP5.schema = some ⟨[usersTableExp, postsTableExp]⟩ ∧
    postsFkColumnExp.type = usersPkColumnExp.type ∧
    scenarioP6.schema = some ⟨[postsAfterDeleteExp]⟩ := by
  refine ⟨?_, rfl, ?_⟩ <;> rfl

/-- C9: writing a released drag coordinate into a table's position
changes exactly that table's `x`/`y` fields, leaves every other table
and every non-position field unchanged, and pushes nothing onto the undo
stack while leaving the redo stack untouched. -/
theorem position_write_no_history (p : Project) (s : Schema) (tid : String)
    (pos : ℚ × ℚ) (hs : p.schema = some s) :
    (handleUpdateTablePosition p tid pos).undoStack = p.undoStack ∧
    (handleUpdateTablePosition p tid pos).redoStack = p.redoStack ∧
    (handleUpdateTablePosition p tid pos).messages = p.messages ∧
    (handleUpdateTablePosition p tid pos).ddl = p.ddl ∧
    ∃ s2, (handleUpdateTablePosition p tid pos).schema = some s2 ∧
      s2.tables.length = s.tables.length ∧
      ∀ (k : Nat) (t : Table), s.tables[k]? = some t →
        (t.id = some tid →
          s2.tables[k]? = some { t with x := some pos.1, y := some pos.2 }) ∧
        (t.id ≠ some tid → s2.tables[k]? = some t) := by
  have hcomp : handleUpdateTablePosition p tid pos =
      { p with schema := some ⟨s.tables.map (fun t =>
          if t.id == some tid then { t with x := some pos.1, y := some pos.2 }
          else t)⟩ } := by
    simp [handleUpdateTablePosition, hs]
  rw [hcomp]
  refine ⟨rfl, rfl, rfl, rfl, _, rfl, by simp, ?_⟩
  intro k t hget
  constructor
  · intro htid
    rw [List.getElem?_map, hget]
    simp [htid]
  · intro htid
    rw [List.getElem?_map, hget]
    simp [htid]

/-- Witness for `position_write_no_history` on a concrete project. -/
theorem position_write_no_history_witness :
    (handleUpdateTablePosition vProjRef "u" (8, 9)).undoStack = vProjRef.undoStack ∧
    (handleUpdateTablePosition vProjRef "u" (8, 9)).redoStack = vProjRef.redoStack ∧
    (handleUpdateTablePosition vProjRef "u" (8, 9)).messages = vProjRef.messages ∧
    (handleUpdateTablePosition vProjRef "u" (8, 9)).ddl = vProjRef.ddl ∧
    ∃ s2, (handleUpdateTablePosition vProjRef "u" (8, 9)).schema = some s2 ∧
      s2.tables.length = (⟨[vUsersTable, vPostsTable]⟩ : Schema).tables.length ∧
      ∀ (k : Nat) (t : Table),
        (⟨[vUsersTable, vPostsTable]⟩ : Schema).tables[k]? = some t →
        (t.id = some "u" →
          s2.tables[k]? = some { t with x := some (8 : ℚ), y := some (9 : ℚ) }) ∧
        (t.id ≠ some "u" → s2.tables[k]? = some t) :=
  position_write_no_history vProjRef ⟨[vUsersTable, vPostsTable]⟩ "u" (8, 9) rfl

/-- Membership in a JS-style set insert. -/
theorem mem_jsSetAdd (s : List (Option String)) (a x : Option String) :
    x ∈ jsSetAdd s a ↔ x ∈ s ∨ x = a := by
  unfold jsSetAdd
  by_cases h : a ∈ s
  · rw [if_pos h]
    exact ⟨fun hx => Or.inl hx, fun hx => hx.elim id (fun he => he ▸ h)⟩
  · rw [if_neg h]
    simp

/-- A JS-style set insert preserves the no-duplicates invariant. -/
theorem nodup_jsSetAdd (s : List (Option String)) (a : Option String)
    (h : s.Nodup) : (jsSetAdd s a).Nodup := by
  unfold jsSetAdd
  by_cases ha : a ∈ s
  · rwa [if_pos ha]
  · rw [if_neg ha, List.nodup_append]
    refine ⟨h, List.nodup_singleton a, ?_⟩
    intro x hx hmem
    simp only [List.mem_singleton] at hmem
    subst hmem
    exact ha hx

/-- Membership in the junction-id fold. -/
theorem mem_junction_fold (l : List Table) :
    ∀ (acc : List (Option String)) (x : Option String),
      x ∈ l.foldl (fun s t => if isJunction t then jsSetAdd s t.id else s) acc ↔
        x ∈ acc ∨ ∃ t ∈ l, isJunction t = true ∧ t.id = x := by
  induction l with
  | nil =>
    intro acc x
    simp
  | cons u rest ih =>
    intro acc x
    simp only [List.foldl_cons]
    by_cases hj : isJunction u = true
    · rw [if_pos hj, ih, mem_jsSetAdd]
      constructor
      · rintro ((hacc | he) | ht)
        · exact Or.inl hacc
        · exact Or.inr ⟨u, List.mem_cons_self u rest, hj, he.symm⟩
        · obtain ⟨t, htm, htj, hte⟩ := ht
          exact Or.inr ⟨t, List.mem_cons_of_mem u htm, htj, hte⟩
      · rintro (hacc | ⟨t, htm, htj, hte⟩)
        · exact Or.inl (Or.inl hacc)
        · rcases List.mem_cons.mp htm with rfl | htm2
          · exact Or.inl (Or.inr hte.symm)
          · exact Or.inr ⟨t, htm2, htj, hte⟩
    · rw [if_neg hj, ih]
      constructor
      · rintro (hacc | ⟨t, htm, htj, hte⟩)
        · exact Or.inl hacc
        · exact Or.inr ⟨t, List.mem_cons_of_mem u htm, htj, hte⟩
      · rintro (hacc | ⟨t, htm, htj, hte⟩)
        · exact Or.inl hacc
        · rcases List.mem_cons.mp htm with rfl | htm2
          · exact absurd htj hj
          · exact Or.inr ⟨t, htm2, htj, hte⟩

/-- A table id is a junction id exactly when some junction table of the
schema carries it. -/
theorem mem_junctionTableIds (schema : Schema) (x : Option String) :
    x ∈ junctionTableIds schema ↔
      ∃ t ∈ schema.tables, isJunction t = true ∧ t.id = x := by
  unfold junctionTableIds
  rw [mem_junction_fold]
  simp

/-- The junction-id fold builds a duplicate-free list. -/
theorem nodup_junction_fold (l : List Table) :
    ∀ acc : List (Option String), acc.Nodup →
      (l.foldl (fun s t => if isJunction t then jsSetAdd s t.id else s) acc).Nodup := by
  induction l with
  | nil =>
    intro acc h
    exact h
  | cons u rest ih =>
    intro acc h
    simp only [List.foldl_cons]
    by_cases hj : isJunction u = true
    · rw [if_pos hj]
      exact ih _ (nodup_jsSetAdd acc u.id h)
    · rw [if_neg hj]
      exact ih _ h

/-- The junction-id list never holds an id twice. -/
theorem nodup_junctionTableIds (schema : Schema) :
    (junctionTableIds schema).Nodup :=
  nodup_junction_fold schema.tables [] List.nodup_nil

/-- With unique table ids, `find?` by a member's id returns that member. -/
theorem find?_by_id_self (l : List Table) (t : Table)
    (h : (l.map Table.id).Nodup) (hmem : t ∈ l) :
    l.find? (fun u => u.id == t.id) = some t := by
  induction l with
  | nil => cases hmem
  | cons u rest ih =>
    simp only [List.map_cons, List.nodup_cons] at h
    rcases List.mem_cons.mp hmem with rfl | hmem2
    · exact List.find?_cons_of_pos rest (by simp)
    · have hne : ¬ (u.id == t.id) = true := by
        simp only [beq_iff_eq]
        intro he
        exact h.1 (by rw [he]; exact List.mem_map_of_mem Table.id hmem2)
      rw [List.find?_cons_of_neg rest hne]
      exact ih h.2 hmem2

/-- Characterisation of the ids of the derived nodes. -/
theorem mem_deriveNodes_id (schema : Schema) (x : Option String) :
    x ∈ (deriveNodes schema).map GraphNode.id ↔
      ∃ t ∈ schema.tables, t.id = x ∧ t.id ∉ junctionTableIds schema := by
  unfold deriveNodes
  rw [List.map_map]
  simp only [List.mem_map, List.mem_filter, Function.comp_apply]
  constructor
  · rintro ⟨t, ⟨htm, hft⟩, rfl⟩
    refine ⟨t, htm, rfl, ?_⟩
    simpa using hft
  · rintro ⟨t, htm, rfl, hnj⟩
    exact ⟨t, ⟨htm, by simpa using hnj⟩, rfl⟩

/-- In a duplicate-free id list every member is counted exactly once. -/
theorem count_eq_one_of_nodup_mem :
    ∀ (l : List (Option String)) (a : Option String),
      l.Nodup → a ∈ l → l.count a = 1 := by
  intro l
  induction l with
  | nil =>
    intro a _ h
    cases h
  | cons b rest ih =>
    intro a hn hm
    rw [List.nodup_cons] at hn
    rcases List.mem_cons.mp hm with rfl | hm2
    · rw [List.count_cons_self]
      have hz : rest.count a = 0 := by
        rw [List.count_eq_zero]
        exact hn.1
      omega
    · have hne : a ≠ b := by
        rintro rfl
        exact hn.1 hm2
      rw [List.count_cons_of_ne hne]
      exact ih a hn.2 hm2

/-- C1: a table with exactly two columns, all of them both primary and
foreign keys, is classified as a junction: it is not emitted as a node,
contributes exactly one entry to the junction-id set, and (when its two
foreign-key targets resolve to tables X and Y) emits exactly the single
N-to-N edge between X's and Y's ids; a table with three or more columns,
even if all of them are primary+foreign keys, is never a junction, never
enters the junction-id set, and is emitted as a regular node. -/
theorem junction_collapsing (s : Schema) (t : Table) (c1 c2 : Column)
    (t1 t2 : Table)
    (hids : (s.tables.map Table.id).Nodup)
    (hmem : t ∈ s.tables) :
    (t.columns.length = 2 →
      (∀ c ∈ t.columns, c.isPrimaryKey = true ∧ c.isForeignKey = true) →
      isJunction t = true ∧
      t.id ∉ (deriveNodes s).map GraphNode.id ∧
      (junctionTableIds s).count t.id = 1 ∧
      ((t.columns.filter (fun c => c.isForeignKey))[0]? = some c1 →
        (t.columns.filter (fun c => c.isForeignKey))[1]? = some c2 →
        fkTargetTable s c1 = some t1 → fkTargetTable s c2 = some t2 →
        junctionEdgeOfId s t.id = some ⟨t1.id, t2.id, LinkType.nToN⟩ ∧
        (⟨t1.id, t2.id, LinkType.nToN⟩ : GraphLink) ∈ deriveLinks s)) ∧
    (3 ≤ t.columns.length →
      (∀ c ∈ t.columns, c.isPrimaryKey = true ∧ c.isForeignKey = true) →
      isJunction t = false ∧
      t.id ∉ junctionTableIds s ∧
      t.id ∈ (deriveNodes s).map GraphNode.id) := by
  constructor
  · intro h2 hall
    have hjun : isJunction t = true := by
      have hpk : t.columns.filter (fun c => c.isPrimaryKey) = t.columns :=
        List.filter_eq_self.mpr (fun c hc => (hall c hc).1)
      have hfk : t.columns.filter (fun c => c.isForeignKey) = t.columns :=
        List.filter_eq_self.mpr (fun c hc => (hall c hc).2)
      simp [isJunction, hpk, hfk, h2]
    have hmemJ : t.id ∈ junctionTableIds s :=
      (mem_junctionTableIds s t.id).mpr ⟨t, hmem, hjun, rfl⟩
    refine ⟨hjun, ?_, ?_, ?_⟩
    · intro hin
      obtain ⟨u, hum, hue, hunj⟩ := (mem_deriveNodes_id s t.id).mp hin
      exact hunj (hue ▸ hmemJ)
    · exact count_eq_one_of_nodup_mem _ t.id (nodup_junctionTableIds s) hmemJ
    · intro hc1 hc2 hr1 hr2
      have hfound := find?_by_id_self s.tables t hids hmem
      have hedge : junctionEdgeOfId s t.id =
          some ⟨t1.id, t2.id, LinkType.nToN⟩ := by
        simp [junctionEdgeOfId, hfound, hc1, hc2, hr1, hr2]
      refine ⟨hedge, ?_⟩
      have hmemE : (⟨t1.id, t2.id, LinkType.nToN⟩ : GraphLink) ∈ junctionEdges s := by
        unfold junctionEdges
        exact List.mem_filterMap.mpr ⟨t.id, hmemJ, hedge⟩
      exact List.mem_append.mpr (Or.inl hmemE)
  · intro h3 _hall
    have hjun : isJunction t = false := by
      have hne : t.columns.length ≠ 2 := by omega
      simp [isJunction, hne]
    have hnj : t.id ∉ junctionTableIds s := by
      intro hin
      obtain ⟨u, hum, huj, hue⟩ := (mem_junctionTableIds s t.id).mp hin
      have hut : u = t := List.inj_on_of_nodup_map hids hum hmem hue
      rw [hut] at huj
      rw [hjun] at huj
      cases huj
    exact ⟨hjun, hnj, (mem_deriveNodes_id s t.id).mpr ⟨t, hmem, rfl, hnj⟩⟩

/-- Witness for `junction_collapsing` on a concrete schema with both a
two-column junction and a three-column all-keys table. -/
theorem junction_collapsing_witness :
    (isJunction jJunction = true ∧
      jJunction.id ∉ (deriveNodes jSchema).map GraphNode.id ∧
      (junctionTableIds jSchema).count jJunction.id = 1 ∧
      junctionEdgeOfId jSchema jJunction.id =
        some ⟨jStudents.id, jCourses.id, LinkType.nToN⟩ ∧
      (⟨jStudents.id, jCourses.id, LinkType.nToN⟩ : GraphLink) ∈ deriveLinks jSchema) ∧
    (isJunction jWide = false ∧
      jWide.id ∉ junctionTableIds jSchema ∧
      jWide.id ∈ (deriveNodes jSchema).map GraphNode.id) := by
  have hA := (junction_collapsing jSchema jJunction jFk1 jFk2 jStudents jCourses
      (by decide) (by decide)).1 (by decide) (by decide)
  have hB := (junction_collapsing jSchema jWide jFk1 jFk2 jStudents jCourses
      (by decide) (by decide)).2 (by decide) (by decide)
  obtain ⟨hj, hnode, hcount, hrest⟩ := hA
  obtain ⟨he, hmemE⟩ := hrest (by decide) (by decide) (by decide) (by decide)
  exact ⟨⟨hj, hnode, hcount, he, hmemE⟩, hB⟩

/-- C10: a junction table whose two foreign-key target names do not both
resolve disappears entirely from the derived graph: no node is emitted
for it, its own N-to-N edge is suppressed, and no derived 1-to-N edge
touches its id — no fallback node and no error. -/
theorem junction_unresolved_disappears (s : Schema) (t : Table) (c1 c2 : Column)
    (hids : (s.tables.map Table.id).Nodup)
    (hmem : t ∈ s.tables)
    (hj : isJunction t = true)
    (hc1 : (t.columns.filter (fun c => c.isForeignKey))[0]? = some c1)
    (hc2 : (t.columns.filter (fun c => c.isForeignKey))[1]? = some c2)
    (hun : fkTargetTable s c1 = none ∨ fkTargetTable s c2 = none) :
    junctionEdgeOfId s t.id = none ∧
    t.id ∉ (deriveNodes s).map GraphNode.id ∧
    ∀ e ∈ fkEdges s, e.source ≠ t.id ∧ e.target ≠ t.id := by
  have hmemJ : t.id ∈ junctionTableIds s :=
    (mem_junctionTableIds s t.id).mpr ⟨t, hmem, hj, rfl⟩
  have hfound := find?_by_id_self s.tables t hids hmem
  refine ⟨?_, ?_, ?_⟩
  · rcases hun with hu1 | hu2
    · cases h2 : fkTargetTable s c2 with
      | none => simp [junctionEdgeOfId, hfound, hc1, hc2, hu1, h2]
      | some t2 => simp [junctionEdgeOfId, hfound, hc1, hc2, hu1, h2]
    · cases h1 : fkTargetTable s c1 with
      | none => simp [junctionEdgeOfId, hfound, hc1, hc2, h1, hu2]
      | some t1 => simp [junctionEdgeOfId, hfound, hc1, hc2, h1, hu2]
  · intro hin
    obtain ⟨u, hum, hue, hunj⟩ := (mem_deriveNodes_id s t.id).mp hin
    exact hunj (hue ▸ hmemJ)
  · intro e he
    unfold fkEdges at he
    rw [List.mem_flatMap] at he
    obtain ⟨u, hum, heu⟩ := he
    unfold fkEdgesOfTable at heu
    by_cases hju : u.id ∈ junctionTableIds s
    · rw [if_pos hju] at heu
      cases heu
    · rw [if_neg hju] at heu
      rw [List.mem_filterMap] at heu
      obtain ⟨c, _hcm, hce⟩ := heu
      by_cases hcond : (c.isForeignKey && isTruthy c.foreignKeyTable) = true
      · rw [if_pos hcond] at hce
        cases htt : fkTargetTable s c with
        | none =>
          rw [htt] at hce
          simp at hce
        | some targetTable =>
          rw [htt] at hce
          have hce2 : (if targetTable.id ∈ junctionTableIds s then none
              else some (⟨u.id, targetTable.id, LinkType.oneToN⟩ : GraphLink)) =
                some e := hce
          by_cases hjt : targetTable.id ∈ junctionTableIds s
          · rw [if_pos hjt] at hce2
            cases hce2
          · rw [if_neg hjt] at hce2
            obtain rfl : (⟨u.id, targetTable.id, LinkType.oneToN⟩ : GraphLink) = e :=
              Option.some.inj hce2
            constructor
            · intro hse
              exact hju (by rw [show u.id = t.id from hse]; exact hmemJ)
            · intro hte
              exact hjt (by rw [show targetTable.id = t.id from hte]; exact hmemJ)
      · rw [if_neg hcond] at hce
        cases hce

/-- Witness for `junction_unresolved_disappears` on a concrete dangling
junction. -/
theorem junction_unresolved_disappears_witness :
    junctionEdgeOfId uSchema uJunction.id = none ∧
    uJunction.id ∉ (deriveNodes uSchema).map GraphNode.id ∧
    ∀ e ∈ fkEdges uSchema, e.source ≠ uJunction.id ∧ e.target ≠ uJunction.id :=
  junction_unresolved_disappears uSchema uJunction uFk1 uFk2
    (by decide) (by decide) (by decide) (by decide) (by decide)
    (Or.inl (by decide))

/-- C5 counterexample: with the 1-N connection tool active and node "a"
already selected as the source, clicking "a" again is NOT a no-op: the
machine resets to the select tool with no selected source, instead of
remaining in the source-selected state. -/
theorem same_node_click_counterexample :
    handleNodeClick ⟨ActiveTool.addConnectionOneN, some "a"⟩ "a" =
      (⟨ActiveTool.select, none⟩, none) ∧
    (⟨ActiveTool.select, (none : Option String)⟩ : GraphUIState) ≠
      ⟨ActiveTool.addConnectionOneN, some "a"⟩ := by
  exact ⟨rfl, by decide⟩

/-- C5 (amended): clicking the node already selected as the connection
source (a truthy, i.e. non-empty, node id — the source-selected state)
commits no edge, but does not stay in the source-selected state: it
clears the source and switches the active tool back to select. -/
theorem same_node_click_resets (st : GraphUIState) (n : String)
    (htool : isConnectionTool st.activeTool = true)
    (hsrc : st.connectionSource = some n) (hne : n ≠ "") :
    handleNodeClick st n = (⟨ActiveTool.select, none⟩, none) := by
  simp [handleNodeClick, htool, hsrc, hne]

/-- Witness for `same_node_click_resets` at a concrete state. -/
theorem same_node_click_resets_witness :
    handleNodeClick ⟨ActiveTool.addConnectionNN, some "b"⟩ "b" =
      (⟨ActiveTool.select, none⟩, none) :=
  same_node_click_resets ⟨ActiveTool.addConnectionNN, some "b"⟩ "b" rfl rfl
    (by decide)
